import Mathlib

/-!
Shallow embedding of the model-management CLI of `example_mlops`
(`src/example_mlops/model_management.py`) and proofs about it.

Metric values stored in artifact metadata are embedded as rationals; the
running best value of the selection scan, which the source initialises to
`float("-inf")` or `float("inf")`, is embedded as an extended rational
`WithBot (WithTop ℚ)` (`⊥` = negative infinity, `⊤` = positive infinity).
-/

/-- Extended metric values: finite rationals together with `-∞` and `+∞`. -/
abbrev MetricVal : Type := WithBot (WithTop ℚ)

/-- Embed a finite metric value into `MetricVal`. -/
def qv (q : ℚ) : MetricVal := ((q : WithTop ℚ) : WithBot (WithTop ℚ))

/-- `float("-inf")` of the source. -/
def negInf : MetricVal := ⊥

/-- `float("inf")` of the source. -/
def posInf : MetricVal := ((⊤ : WithTop ℚ) : WithBot (WithTop ℚ))

/-- A wandb model artifact as the management commands see it: a name, a
metadata mapping from metric names to numeric values, and a list of alias
strings. -/
structure Artifact where
  name : String
  metadata : List (String × ℚ)
  aliases : List String
deriving DecidableEq

/-- `metric_name in artifact.metadata` / `artifact.metadata[metric_name]`
of the source, combined into one dictionary lookup. -/
def Artifact.getMetric (a : Artifact) (m : String) : Option ℚ :=
  a.metadata.lookup m

/-- `compare_op = operator.gt if higher_is_better else operator.lt`
(`model_management.py` line 51), applied as
`compare_op(artifact.metadata[metric_name], best_metric)`. -/
def compareOp (hib : Bool) (x best : MetricVal) : Bool :=
  if hib then decide (best < x) else decide (x < best)

/-- `best_metric = float("-inf") if higher_is_better else float("inf")`
(`model_management.py` line 50). -/
def initBest (hib : Bool) : MetricVal :=
  if hib then negInf else posInf

/-- The scan loop of `stage_best_model_to_registry`
(`model_management.py` lines 53-56): the state is the running
`(best_artifact, best_metric)` pair. -/
def selectLoop (m : String) (hib : Bool) :
    List Artifact → MetricVal → Option Artifact → Option Artifact × MetricVal
  | [], best, bArt => (bArt, best)
  | a :: rest, best, bArt =>
    match a.getMetric m with
    | some v =>
      if compareOp hib (qv v) best then selectLoop m hib rest (qv v) (some a)
      else selectLoop m hib rest best bArt
    | none => selectLoop m hib rest best bArt

/-- The best-artifact selection of `stage_best_model_to_registry`
(`model_management.py` lines 50-56): the whole scan started from the
infinite sentinel and `best_artifact = None`. -/
def stageBestSelect (m : String) (hib : Bool) (coll : List Artifact) :
    Option Artifact × MetricVal :=
  selectLoop m hib coll (initBest hib) none

/-- The logging calls the commands perform, kept structurally: each
constructor stands for one `logger.error`/`logger.info` call site of
`model_management.py`. -/
inductive LogEvent where
  /-- `logger.error("No model found in registry.")` (line 59). -/
  | errorNoModelFound
  /-- `logger.error("Please provide artifact_path")` (line 119). -/
  | errorProvideArtifactPath
  /-- `logger.info(f"Best model found in registry: ... with ...")` (line 62). -/
  | infoBestModelFound (name metric : String) (value : MetricVal)
  /-- `logger.info("Model staged to registry.")` (line 67). -/
  | infoModelStaged
  /-- `logger.info("Model linked to registry.")` (lines 84 and 132). -/
  | infoModelLinked
  /-- The bare `logger.info()` call (line 133). -/
  | infoEmpty
deriving DecidableEq

/-- Whether a log event came from a `logger.error` call. -/
def LogEvent.isError : LogEvent → Bool
  | .errorNoModelFound => true
  | .errorProvideArtifactPath => true
  | _ => false

/-- Calls the commands issue against the external artifact store. -/
inductive StoreOp where
  /-- `api.artifact(path)`. -/
  | fetch (path : String)
  /-- `artifact.link(target_path=target, aliases=aliases)`; the artifact is
  identified by the name or path the command resolved it under. -/
  | link (artifact target : String) (aliases : List String)
  /-- `artifact.save()`. -/
  | save (artifact : String)
deriving DecidableEq

/-- The observable outcome of one CLI command invocation: the log events it
emitted, the store calls it performed, what it printed to stdout, and
whether it ended by raising an uncaught exception. -/
structure CmdTrace where
  logs : List LogEvent
  ops : List StoreOp
  printed : List String
  raised : Bool
deriving DecidableEq

/-- `stage_best_model_to_registry` (`model_management.py` lines 34-67),
given the entity from the environment and the artifact collection the store
returns for `model_name`. -/
def stageBestModelToRegistry (entity modelName metricName : String)
    (hib : Bool) (coll : List Artifact) : CmdTrace :=
  match stageBestSelect metricName hib coll with
  | (none, _) => ⟨[.errorNoModelFound], [], [], false⟩
  | (some a, best) =>
    ⟨[.infoBestModelFound a.name metricName best, .infoModelStaged],
     [.link a.name (entity ++ "/model-registry/" ++ modelName) ["best", "staging"],
      .save a.name],
     [], false⟩

/-- The loop of `link_latest_model` (`model_management.py` lines 80-85):
link, save, log and return on the first artifact aliased "latest"; fall off
the end silently otherwise. -/
def linkLatestLoop (entity modelName : String) (aliases : List String) :
    List Artifact → CmdTrace
  | [] => ⟨[], [], [], false⟩
  | a :: rest =>
    if a.aliases.contains "latest" then
      ⟨[.infoModelLinked],
       [.link a.name (entity ++ "/model-registry/" ++ modelName) aliases,
        .save a.name],
       [], false⟩
    else linkLatestLoop entity modelName aliases rest

/-- `link_latest_model` (`model_management.py` lines 73-85). -/
def linkLatestModel (entity modelName : String) (aliases : List String)
    (coll : List Artifact) : CmdTrace :=
  linkLatestLoop entity modelName aliases coll

/-- The loop of `print_latest_model` (`model_management.py` lines 97-99):
prints the name of every artifact aliased "latest" (there is no early
return). -/
def printLatestLoop : List Artifact → List String
  | [] => []
  | a :: rest =>
    (if a.aliases.contains "latest" then [a.name] else []) ++ printLatestLoop rest

/-- `print_latest_model` (`model_management.py` lines 90-99). -/
def printLatestModel (coll : List Artifact) : CmdTrace :=
  ⟨[], [], printLatestLoop coll, false⟩

/-- Python's `str.split(sep)` for a single-character separator, over the
character list of the string: splitting the empty string yields `[[]]`, and
the number of pieces is always one more than the number of separators. -/
def splitChar (c : Char) : List Char → List (List Char)
  | [] => [[]]
  | x :: xs =>
    match splitChar c xs with
    | [] => [[]]
    | y :: ys => if x = c then [] :: y :: ys else (x :: y) :: ys

/-- `link_model` (`model_management.py` lines 105-133).  The tuple
unpackings `_, _, artifact_name_version = artifact_path.split("/")` and
`artifact_name, _ = artifact_name_version.split(":")` raise an uncaught
`ValueError` unless the splits yield exactly three and exactly two pieces;
the raise happens before any store call. -/
def linkModel (entity artifactPath : String) (aliases : List String) : CmdTrace :=
  if artifactPath = "" then ⟨[.errorProvideArtifactPath], [], [], false⟩
  else
    match splitChar '/' artifactPath.toList with
    | [_, _, anv] =>
      match splitChar ':' anv with
      | [nm, _] =>
        ⟨[.infoModelLinked, .infoEmpty],
         [.fetch artifactPath,
          .link artifactPath (entity ++ "/model-registry/" ++ String.mk nm) aliases,
          .save artifactPath],
         [], false⟩
      | _ => ⟨[], [], [], true⟩
    | _ => ⟨[], [], [], true⟩

/-- One step of the alias-set union: add the alias unless already present. -/
def aliasUnionStep (acc : List String) (x : String) : List String :=
  if acc.contains x then acc else acc ++ [x]

/-- Modelled from the spec: the Promoter contract (spec §4.3) — the store's
link-then-save on a resolved artifact attaches the given aliases to the
artifact's alias set ("union, not replace") and persists it otherwise
unchanged.  The store client implementing the alias attachment is the
external wandb library, not part of this repository's source. -/
def Artifact.promote (a : Artifact) (als : List String) : Artifact :=
  { a with aliases := als.foldl aliasUnionStep a.aliases }

/-- The end-to-end scenario collection of the spec (§8), with integer
percent metric values. -/
def sampleColl : List Artifact :=
  [⟨"v1", [("accuracy", 90)], []⟩, ⟨"v2", [("accuracy", 95)], []⟩, ⟨"v3", [], []⟩]

/-- A collection with an exact tie on the metric. -/
def sampleTie : List Artifact :=
  [⟨"v1", [("accuracy", 95)], []⟩, ⟨"v2", [("accuracy", 95)], []⟩]

example : (stageBestSelect "accuracy" true sampleColl).1 =
    some ⟨"v2", [("accuracy", 95)], []⟩ := by decide

example :
    (stageBestSelect "accuracy" false
      [⟨"v1", [("accuracy", 90)], []⟩, ⟨"v2", [("accuracy", 95)], []⟩]).1 =
      some ⟨"v1", [("accuracy", 90)], []⟩ := by decide

example : (stageBestSelect "accuracy" true [⟨"v3", [], []⟩]).1 = none := by decide

example :
    linkModel "e" "ent/proj/mod:v3" ["staging"] =
      ⟨[.infoModelLinked, .infoEmpty],
       [.fetch "ent/proj/mod:v3", .link "ent/proj/mod:v3" "e/model-registry/mod" ["staging"],
        .save "ent/proj/mod:v3"], [], false⟩ := by decide

example : (linkModel "e" "bad-path" ["staging"]).raised = true := by decide

example : (Artifact.promote ⟨"v1", [], ["old", "best"]⟩ ["best", "staging"]).aliases =
    ["old", "best", "staging"] := by decide

theorem qv_le_qv {a b : ℚ} : qv a ≤ qv b ↔ a ≤ b := by
  simp [qv]

theorem qv_lt_qv {a b : ℚ} : qv a < qv b ↔ a < b := by
  simp [qv]

theorem compareOp_qv_initBest (hib : Bool) (v : ℚ) :
    compareOp hib (qv v) (initBest hib) = true := by
  cases hib
  · have h : qv v < posInf := WithBot.coe_lt_coe.mpr (WithTop.coe_lt_top v)
    simp [compareOp, initBest, h]
  · have h : negInf < qv v := WithBot.bot_lt_coe _
    simp [compareOp, initBest, h]

theorem selectLoop_nil (m : String) (hib : Bool) (best : MetricVal)
    (bArt : Option Artifact) : selectLoop m hib [] best bArt = (bArt, best) := rfl

theorem selectLoop_cons (m : String) (hib : Bool) (a : Artifact)
    (rest : List Artifact) (best : MetricVal) (bArt : Option Artifact) :
    selectLoop m hib (a :: rest) best bArt =
      match a.getMetric m with
      | some v =>
        if compareOp hib (qv v) best then selectLoop m hib rest (qv v) (some a)
        else selectLoop m hib rest best bArt
      | none => selectLoop m hib rest best bArt := rfl

theorem selectLoop_append (m : String) (hib : Bool) (l1 l2 : List Artifact)
    (best : MetricVal) (bArt : Option Artifact) :
    selectLoop m hib (l1 ++ l2) best bArt =
      selectLoop m hib l2 (selectLoop m hib l1 best bArt).2
        (selectLoop m hib l1 best bArt).1 := by
  induction l1 generalizing best bArt with
  | nil => simp [selectLoop_nil]
  | cons a rest ih =>
    rw [List.cons_append, selectLoop_cons, selectLoop_cons]
    cases hm : a.getMetric m with
    | none => exact ih best bArt
    | some v =>
      by_cases hc : compareOp hib (qv v) best
      · simp only [hc, if_true]
        exact ih (qv v) (some a)
      · simp only [hc, if_false]
        exact ih best bArt

theorem selectLoop_noImprove (m : String) (hib : Bool) (l : List Artifact)
    (best : MetricVal) (bArt : Option Artifact)
    (h : ∀ a ∈ l, ∀ w, a.getMetric m = some w → compareOp hib (qv w) best = false) :
    selectLoop m hib l best bArt = (bArt, best) := by
  induction l with
  | nil => rfl
  | cons a rest ih =>
    rw [selectLoop_cons]
    cases hm : a.getMetric m with
    | none => exact ih fun b hb w hw => h b (List.mem_cons_of_mem a hb) w hw
    | some v =>
      have hc := h a (List.mem_cons_self a rest) v hm
      simp only [hc, if_false, Bool.false_eq_true]
      exact ih fun b hb w hw => h b (List.mem_cons_of_mem a hb) w hw

theorem selectLoop_state (m : String) (hib : Bool) (l : List Artifact)
    (best : MetricVal) (bArt : Option Artifact) :
    selectLoop m hib l best bArt = (bArt, best) ∨
      ∃ a ∈ l, ∃ v, a.getMetric m = some v ∧
        selectLoop m hib l best bArt = (some a, qv v) := by
  induction l generalizing best bArt with
  | nil => exact Or.inl rfl
  | cons a rest ih =>
    rw [selectLoop_cons]
    cases hm : a.getMetric m with
    | none =>
      rcases ih best bArt with h | ⟨b, hb, v, hv, h⟩
      · exact Or.inl h
      · exact Or.inr ⟨b, List.mem_cons_of_mem a hb, v, hv, h⟩
    | some v =>
      by_cases hc : compareOp hib (qv v) best
      · simp only [hc, if_true]
        rcases ih (qv v) (some a) with h | ⟨b, hb, w, hw, h⟩
        · exact Or.inr ⟨a, List.mem_cons_self a rest, v, hm, h⟩
        · exact Or.inr ⟨b, List.mem_cons_of_mem a hb, w, hw, h⟩
      · simp only [hc, if_false]
        rcases ih best bArt with h | ⟨b, hb, w, hw, h⟩
        · exact Or.inl h
        · exact Or.inr ⟨b, List.mem_cons_of_mem a hb, w, hw, h⟩

theorem selectLoop_mono (m : String) (hib : Bool) (l : List Artifact)
    (best : MetricVal) (bArt : Option Artifact) :
    (hib = true → best ≤ (selectLoop m hib l best bArt).2) ∧
      (hib = false → (selectLoop m hib l best bArt).2 ≤ best) := by
  induction l generalizing best bArt with
  | nil => exact ⟨fun _ => le_refl _, fun _ => le_refl _⟩
  | cons a rest ih =>
    rw [selectLoop_cons]
    cases hm : a.getMetric m with
    | none => exact ih best bArt
    | some v =>
      by_cases hc : compareOp hib (qv v) best
      · simp only [hc, if_true]
        constructor
        · intro htrue
          subst htrue
          have hlt : best < qv v := by
            simpa [compareOp] using hc
          exact le_trans hlt.le ((ih (qv v) (some a)).1 rfl)
        · intro hfalse
          subst hfalse
          have hlt : qv v < best := by
            simpa [compareOp] using hc
          exact le_trans ((ih (qv v) (some a)).2 rfl) hlt.le
      · simp only [hc, if_false]
        exact ih best bArt

theorem selectLoop_dom (m : String) (hib : Bool) (l : List Artifact)
    (best : MetricVal) (bArt : Option Artifact) (b : Artifact) (w : ℚ) :
    b ∈ l → b.getMetric m = some w →
    (hib = true → qv w ≤ (selectLoop m hib l best bArt).2) ∧
      (hib = false → (selectLoop m hib l best bArt).2 ≤ qv w) := by
  induction l generalizing best bArt with
  | nil => intro hb _; exact absurd hb (List.not_mem_nil b)
  | cons a rest ih =>
    intro hb hw
    rw [selectLoop_cons]
    rcases List.mem_cons.mp hb with rfl | hb'
    · rw [hw]
      by_cases hc : compareOp hib (qv w) best
      · simp only [hc, if_true]
        exact selectLoop_mono m hib rest (qv w) (some b)
      · simp only [hc, if_false]
        constructor
        · intro htrue
          subst htrue
          have hle : qv w ≤ best := by
            have := (Bool.not_eq_true _).mp hc
            simpa [compareOp, not_lt] using this
          exact le_trans hle ((selectLoop_mono m true rest best bArt).1 rfl)
        · intro hfalse
          subst hfalse
          have hle : best ≤ qv w := by
            have := (Bool.not_eq_true _).mp hc
            simpa [compareOp, not_lt] using this
          exact le_trans ((selectLoop_mono m false rest best bArt).2 rfl) hle
    · cases hm : a.getMetric m with
      | none => exact ih best bArt hb' hw
      | some v =>
        by_cases hc : compareOp hib (qv v) best
        · simp only [hc, if_true]
          exact ih (qv v) (some a) hb' hw
        · simp only [hc, if_false]
          exact ih best bArt hb' hw

theorem exists_first_split {α : Type} (p : α → Bool) (l : List α)
    (h : ∃ a ∈ l, p a = true) :
    ∃ l1 x l2, l = l1 ++ x :: l2 ∧ p x = true ∧ ∀ y ∈ l1, p y = false := by
  induction l with
  | nil => simp at h
  | cons a rest ih =>
    by_cases hp : p a = true
    · exact ⟨[], a, rest, rfl, hp, by simp⟩
    · have hrest : ∃ b ∈ rest, p b = true := by
        rcases h with ⟨b, hb, hpb⟩
        rcases List.mem_cons.mp hb with rfl | hb'
        · exact absurd hpb hp
        · exact ⟨b, hb', hpb⟩
      rcases ih hrest with ⟨l1, x, l2, heq, hx, hall⟩
      refine ⟨a :: l1, x, l2, by rw [heq]; rfl, hx, ?_⟩
      intro y hy
      rcases List.mem_cons.mp hy with rfl | hy'
      · exact (Bool.not_eq_true _).mp hp
      · exact hall y hy'

theorem compareOp_eq_true (hib : Bool) (x y : MetricVal) :
    compareOp hib x y = true ↔ (hib = true ∧ y < x) ∨ (hib = false ∧ x < y) := by
  cases hib <;> simp [compareOp]

theorem compareOp_eq_false (hib : Bool) (x y : MetricVal) :
    compareOp hib x y = false ↔ (hib = true → x ≤ y) ∧ (hib = false → y ≤ x) := by
  cases hib <;> simp [compareOp, not_lt]

theorem stageBestSelect_none (m : String) (hib : Bool) (coll : List Artifact)
    (h : ∀ a ∈ coll, a.getMetric m = none) :
    stageBestSelect m hib coll = (none, initBest hib) :=
  selectLoop_noImprove m hib coll _ _
    (fun b hb w hw => by rw [h b hb] at hw; cases hw)

/-- C1: for every collection holding at least one artifact whose metadata
carries `metric_name`, the best-artifact selection of
`stage_best_model_to_registry` returns an artifact (not the not-found
`None`) that belongs to the collection, carries the metric, and whose
metric value is ≥ (when `higher_is_better` is true) resp. ≤ (when it is
false) the value of every other artifact in the collection carrying the
metric. -/
theorem stageBestSelect_optimal (m : String) (hib : Bool) (coll : List Artifact)
    (hex : ∃ a ∈ coll, (a.getMetric m).isSome = true) :
    ∃ a v, (stageBestSelect m hib coll).1 = some a ∧ a ∈ coll ∧
      a.getMetric m = some v ∧
      ∀ b ∈ coll, ∀ w, b.getMetric m = some w →
        (hib = true → w ≤ v) ∧ (hib = false → v ≤ w) := by
  rcases exists_first_split (fun a => (a.getMetric m).isSome) coll hex with
    ⟨l1, x, l2, heq, hx, hl1⟩
  rcases Option.isSome_iff_exists.mp hx with ⟨vx, hvx⟩
  have hpre : selectLoop m hib l1 (initBest hib) none = (none, initBest hib) :=
    selectLoop_noImprove m hib l1 _ _ (by
      intro b hb w hw
      have hnb := hl1 b hb
      rw [hw] at hnb
      cases hnb)
  have hstep : stageBestSelect m hib coll = selectLoop m hib l2 (qv vx) (some x) := by
    rw [stageBestSelect, heq, selectLoop_append, hpre]
    rw [selectLoop_cons, hvx]
    simp [compareOp_qv_initBest]
  have hres : ∃ a v, a ∈ coll ∧ a.getMetric m = some v ∧
      stageBestSelect m hib coll = (some a, qv v) := by
    rcases selectLoop_state m hib l2 (qv vx) (some x) with h | ⟨b, hb, w, hw, h⟩
    · exact ⟨x, vx,
        by rw [heq]; exact List.mem_append_right _ (List.mem_cons_self x l2),
        hvx, by rw [hstep, h]⟩
    · exact ⟨b, w,
        by rw [heq]; exact List.mem_append_right _ (List.mem_cons_of_mem x hb),
        hw, by rw [hstep, h]⟩
  rcases hres with ⟨a, v, ha, hv, hres⟩
  refine ⟨a, v, by rw [hres], ha, hv, ?_⟩
  intro b hb w hw
  have hdom := selectLoop_dom m hib coll (initBest hib) none b w hb hw
  have hres' : selectLoop m hib coll (initBest hib) none = (some a, qv v) := hres
  rw [hres'] at hdom
  exact ⟨fun h => qv_le_qv.mp (hdom.1 h), fun h => qv_le_qv.mp (hdom.2 h)⟩

/-- C2: when two artifacts at positions `i < j` of the collection carry
`metric_name` with exactly equal values that are optimal among all
qualifying artifacts, and position `i` is the earliest position attaining
that value, the selection of `stage_best_model_to_registry` returns the
artifact at position `i` — first-wins tie-breaking, because the
replacement test is the strict comparison `compare_op`. -/
theorem stageBestSelect_tiebreak (m : String) (hib : Bool) (coll : List Artifact)
    (i j : ℕ) (hi : i < coll.length) (hj : j < coll.length) (hij : i < j) (v : ℚ)
    (hvi : (coll.get ⟨i, hi⟩).getMetric m = some v)
    (hvj : (coll.get ⟨j, hj⟩).getMetric m = some v)
    (hopt : ∀ b ∈ coll, ∀ w, b.getMetric m = some w →
      (hib = true → w ≤ v) ∧ (hib = false → v ≤ w))
    (hfirst : ∀ b ∈ coll.take i, ∀ w, b.getMetric m = some w → w ≠ v) :
    (stageBestSelect m hib coll).1 = some (coll.get ⟨i, hi⟩) := by
  have hsplit : coll = coll.take i ++ coll.get ⟨i, hi⟩ :: coll.drop (i + 1) := by
    rw [List.cons_get_drop_succ, List.take_append_drop]
  have hfreeze : ∀ b ∈ coll.drop (i + 1), ∀ w, b.getMetric m = some w →
      compareOp hib (qv w) (qv v) = false := by
    intro b hb w hw
    have hbc : b ∈ coll := List.drop_subset _ _ hb
    have hopt' := hopt b hbc w hw
    rw [compareOp_eq_false]
    exact ⟨fun ht => qv_le_qv.mpr (hopt'.1 ht), fun hf => qv_le_qv.mpr (hopt'.2 hf)⟩
  conv_lhs => rw [hsplit]
  rw [stageBestSelect, selectLoop_append]
  rcases selectLoop_state m hib (coll.take i) (initBest hib) none with
    h1 | ⟨b, hb, w, hw, h1⟩
  · rw [h1, selectLoop_cons, hvi]
    simp only [compareOp_qv_initBest, if_true]
    rw [selectLoop_noImprove m hib _ _ _ hfreeze]
  · have hbc : b ∈ coll := List.take_subset _ _ hb
    have hwv := hopt b hbc w hw
    have hne : w ≠ v := hfirst b hb w hw
    have hcmp : compareOp hib (qv v) (qv w) = true := by
      cases hib
      · rw [compareOp_eq_true]
        exact Or.inr ⟨rfl, qv_lt_qv.mpr (lt_of_le_of_ne (hwv.2 rfl) (Ne.symm hne))⟩
      · rw [compareOp_eq_true]
        exact Or.inl ⟨rfl, qv_lt_qv.mpr (lt_of_le_of_ne (hwv.1 rfl) hne)⟩
    rw [h1, selectLoop_cons, hvi]
    simp only [hcmp, if_true]
    rw [selectLoop_noImprove m hib _ _ _ hfreeze]

/-- C3: the running best value of the selection scan is initialised to
negative infinity when `higher_is_better` is true and to positive infinity
otherwise, and the first artifact of the collection carrying `metric_name`
always beats that sentinel and becomes the running best pair. -/
theorem stageBestSelect_initial (m : String) (hib : Bool) (pre suf : List Artifact)
    (a : Artifact) (v : ℚ) (hpre : ∀ b ∈ pre, b.getMetric m = none)
    (ha : a.getMetric m = some v) :
    initBest true = negInf ∧ initBest false = posInf ∧
    compareOp hib (qv v) (initBest hib) = true ∧
    stageBestSelect m hib (pre ++ a :: suf) = selectLoop m hib suf (qv v) (some a) := by
  refine ⟨rfl, rfl, compareOp_qv_initBest hib v, ?_⟩
  have hpre' : selectLoop m hib pre (initBest hib) none = (none, initBest hib) :=
    selectLoop_noImprove m hib pre _ _
      (fun b hb w hw => by rw [hpre b hb] at hw; cases hw)
  rw [stageBestSelect, selectLoop_append, hpre']
  rw [selectLoop_cons, ha]
  simp [compareOp_qv_initBest]

/-- C4: on a collection in which no artifact carries `metric_name`
(including the empty collection), the selection returns the not-found
`None`, and `stage_best_model_to_registry` logs the "No model found in
registry." error and returns without raising and without issuing any link
or save call against the store. -/
theorem stageBest_notFound (entity modelName m : String) (hib : Bool)
    (coll : List Artifact) (h : ∀ a ∈ coll, a.getMetric m = none) :
    (stageBestSelect m hib coll).1 = none ∧
    stageBestModelToRegistry entity modelName m hib coll =
      ⟨[LogEvent.errorNoModelFound], [], [], false⟩ := by
  have hs := stageBestSelect_none m hib coll h
  refine ⟨by rw [hs], ?_⟩
  rw [stageBestModelToRegistry, hs]

theorem splitChar_ne_nil (c : Char) (s : List Char) : splitChar c s ≠ [] := by
  cases s with
  | nil => simp [splitChar]
  | cons x xs =>
    rw [splitChar]
    cases h : splitChar c xs with
    | nil => simp
    | cons y ys => by_cases hx : x = c <;> simp [hx]

theorem splitChar_length (c : Char) (s : List Char) :
    (splitChar c s).length = s.count c + 1 := by
  induction s with
  | nil => rfl
  | cons x xs ih =>
    rw [splitChar]
    cases h : splitChar c xs with
    | nil => exact absurd h (splitChar_ne_nil c xs)
    | cons y ys =>
      rw [h] at ih
      by_cases hx : x = c
      · subst hx
        simp only [if_pos rfl, List.length_cons, List.count_cons] at *
        simp at *
        omega
      · simp only [if_neg hx, List.length_cons, List.count_cons] at *
        have hxc : ¬ (x == c) = true := by simpa using hx
        simp [hxc] at *
        omega

theorem splitChar_three (c : Char) (s : List Char) (h : s.count c = 2) :
    ∃ a b d, splitChar c s = [a, b, d] := by
  have hl : (splitChar c s).length = 3 := by rw [splitChar_length, h]
  exact List.length_eq_three.mp hl

theorem splitChar_two (c : Char) (s : List Char) (h : s.count c = 1) :
    ∃ a b, splitChar c s = [a, b] := by
  have hl : (splitChar c s).length = 2 := by rw [splitChar_length, h]
  exact List.length_eq_two.mp hl

/-- C10: for every non-empty reference string with exactly two `/`
characters and exactly one `:` in its final `/`-segment, `link_model`'s
parsing succeeds — even when the entity, project or name pieces are empty —
the artifact name is the part of the final segment before the `:`, the
artifact is fetched by the full original path (version included), and the
promotion target is built from the artifact name with the version
discarded. -/
theorem linkModel_parse_ok (entity s : String) (als : List String)
    (hne : s ≠ "") (h2 : s.toList.count '/' = 2)
    (h1 : ((splitChar '/' s.toList).getLastD []).count ':' = 1) :
    ∃ e p anv nm ver,
      splitChar '/' s.toList = [e, p, anv] ∧ splitChar ':' anv = [nm, ver] ∧
      linkModel entity s als =
        ⟨[LogEvent.infoModelLinked, LogEvent.infoEmpty],
         [StoreOp.fetch s,
          StoreOp.link s (entity ++ "/model-registry/" ++ String.mk nm) als,
          StoreOp.save s],
         [], false⟩ := by
  rcases splitChar_three '/' s.toList h2 with ⟨e, p, anv, hsp⟩
  rw [hsp] at h1
  have h1' : anv.count ':' = 1 := by simpa using h1
  rcases splitChar_two ':' anv h1' with ⟨nm, ver, hsp2⟩
  refine ⟨e, p, anv, nm, ver, hsp, hsp2, ?_⟩
  have hsp' : splitChar '/' s.data = [e, p, anv] := hsp
  simp [linkModel, hne, hsp', hsp2]

/-- C5 counterexample: on the malformed reference "bad-path" (no `/` at
all), `link_model` raises an uncaught exception from tuple unpacking — it
does not log any error and does not return cleanly, contradicting the
claimed logged-and-aborted `MalformedReference` handling.  (No link or save
is performed, as the raise precedes any store call.) -/
theorem linkModel_badPath_counterexample :
    (linkModel "entityX" "bad-path" ["staging"]).raised = true ∧
    (linkModel "entityX" "bad-path" ["staging"]).logs = [] ∧
    (linkModel "entityX" "bad-path" ["staging"]).ops = [] := by decide

/-- C5 amended: only the empty input string gets the logged clean abort
(`"Please provide artifact_path"`); every other input lacking exactly two
`/` characters or exactly one `:` in its final segment makes `link_model`
raise an uncaught exception, with no log and no link or save call. -/
theorem linkModel_malformed (entity s : String) (als : List String)
    (h : ¬ (s.toList.count '/' = 2 ∧
        ((splitChar '/' s.toList).getLastD []).count ':' = 1)) :
    (s = "" → linkModel entity s als =
      ⟨[LogEvent.errorProvideArtifactPath], [], [], false⟩) ∧
    (s ≠ "" → linkModel entity s als = ⟨[], [], [], true⟩) := by
  constructor
  · intro he
    rw [linkModel, if_pos he]
  · intro hne
    by_cases h2 : s.toList.count '/' = 2
    · rcases splitChar_three '/' s.toList h2 with ⟨e, p, anv, hsp⟩
      have hsp' : splitChar '/' s.data = [e, p, anv] := hsp
      have h1 : anv.count ':' ≠ 1 := fun hc => h ⟨h2, by rw [hsp]; simpa using hc⟩
      have hlen : (splitChar ':' anv).length ≠ 2 := by
        rw [splitChar_length]
        omega
      cases hsc : splitChar ':' anv with
      | nil => simp [linkModel, hne, hsp', hsc]
      | cons a t =>
        cases t with
        | nil => simp [linkModel, hne, hsp', hsc]
        | cons b t2 =>
          cases t2 with
          | nil => exact absurd (by rw [hsc]; rfl) hlen
          | cons d t3 => simp [linkModel, hne, hsp', hsc]
    · have hlen : (splitChar '/' s.toList).length ≠ 3 := by
        rw [splitChar_length]
        omega
      cases hsp : splitChar '/' s.data with
      | nil => simp [linkModel, hne, hsp]
      | cons a t =>
        cases t with
        | nil => simp [linkModel, hne, hsp]
        | cons b t2 =>
          cases t2 with
          | nil => simp [linkModel, hne, hsp]
          | cons d t3 =>
            cases t3 with
            | nil =>
              refine absurd ?_ hlen
              have hsp' : splitChar '/' s.toList = [a, b, d] := hsp
              rw [hsp']
              rfl
            | cons e2 t4 => simp [linkModel, hne, hsp]

theorem linkLatestLoop_none (entity modelName : String) (als : List String)
    (l : List Artifact) (h : ∀ b ∈ l, b.aliases.contains "latest" = false) :
    linkLatestLoop entity modelName als l = ⟨[], [], [], false⟩ := by
  induction l with
  | nil => rfl
  | cons a rest ih =>
    have ha := h a (List.mem_cons_self a rest)
    rw [linkLatestLoop, if_neg (by rw [ha]; exact Bool.false_ne_true)]
    exact ih fun c hc => h c (List.mem_cons_of_mem a hc)

theorem linkLatestLoop_first (entity modelName : String) (als : List String)
    (pre suf : List Artifact) (a : Artifact)
    (hpre : ∀ b ∈ pre, b.aliases.contains "latest" = false)
    (ha : a.aliases.contains "latest" = true) :
    linkLatestLoop entity modelName als (pre ++ a :: suf) =
      ⟨[LogEvent.infoModelLinked],
       [StoreOp.link a.name (entity ++ "/model-registry/" ++ modelName) als,
        StoreOp.save a.name],
       [], false⟩ := by
  induction pre with
  | nil =>
    rw [List.nil_append, linkLatestLoop, if_pos ha]
  | cons b rest ih =>
    have hb := hpre b (List.mem_cons_self b rest)
    rw [List.cons_append, linkLatestLoop, if_neg (by rw [hb]; exact Bool.false_ne_true)]
    exact ih fun c hc => hpre c (List.mem_cons_of_mem b hc)

theorem printLatestLoop_eq_filter (l : List Artifact) :
    printLatestLoop l =
      (l.filter (fun b => b.aliases.contains "latest")).map Artifact.name := by
  induction l with
  | nil => rfl
  | cons a rest ih =>
    by_cases h : a.aliases.contains "latest" = true
    · have hm : "latest" ∈ a.aliases := List.mem_of_elem_eq_true h
      simp [printLatestLoop, List.filter_cons, hm, ih]
    · have hm : ¬ "latest" ∈ a.aliases := fun hmem => h (List.elem_eq_true_of_mem hmem)
      simp [printLatestLoop, List.filter_cons, hm, ih, h]

theorem printLatestLoop_none (l : List Artifact)
    (h : ∀ b ∈ l, b.aliases.contains "latest" = false) :
    printLatestLoop l = [] := by
  induction l with
  | nil => rfl
  | cons a rest ih =>
    have ha := h a (List.mem_cons_self a rest)
    rw [printLatestLoop, ha]
    simp only [Bool.false_eq_true, if_false, List.nil_append]
    exact ih fun c hc => h c (List.mem_cons_of_mem a hc)

/-- C7 counterexample: on a collection with two artifacts aliased
"latest", `print_latest_model` prints both names — the loop has no early
return — so it does not print exactly the first matching artifact's name. -/
theorem printLatest_two_counterexample :
    (printLatestModel
      [⟨"m:v0", [], ["latest"]⟩, ⟨"m:v1", [], ["latest"]⟩]).printed =
      ["m:v0", "m:v1"] ∧
    (printLatestModel
      [⟨"m:v0", [], ["latest"]⟩, ⟨"m:v1", [], ["latest"]⟩]).printed ≠
      ["m:v0"] := by decide

/-- C7 amended: `link_latest_model` resolves the first artifact in
collection order aliased "latest", even when several carry the tag, and
promotes exactly that one; `print_latest_model` prints the names of all
artifacts aliased "latest" in collection order and performs no store
mutation and raises nothing. -/
theorem latestLocator_first_printAll (entity modelName : String)
    (als : List String) (pre suf : List Artifact) (a : Artifact)
    (hpre : ∀ b ∈ pre, b.aliases.contains "latest" = false)
    (ha : a.aliases.contains "latest" = true) :
    linkLatestModel entity modelName als (pre ++ a :: suf) =
      ⟨[LogEvent.infoModelLinked],
       [StoreOp.link a.name (entity ++ "/model-registry/" ++ modelName) als,
        StoreOp.save a.name],
       [], false⟩ ∧
    (printLatestModel (pre ++ a :: suf)).printed =
      ((pre ++ a :: suf).filter (fun b => b.aliases.contains "latest")).map
        Artifact.name ∧
    (printLatestModel (pre ++ a :: suf)).ops = [] ∧
    (printLatestModel (pre ++ a :: suf)).raised = false :=
  ⟨linkLatestLoop_first entity modelName als pre suf a hpre ha,
   printLatestLoop_eq_filter (pre ++ a :: suf), rfl, rfl⟩

/-- C6 counterexample: `link_latest_model` on a collection with no
"latest"-tagged artifact (here the empty collection) returns without
raising but logs nothing at all — the claimed error log does not happen. -/
theorem linkLatest_notFound_counterexample :
    (linkLatestModel "entityX" "modelX" ["staging"] []).logs = [] ∧
    (linkLatestModel "entityX" "modelX" ["staging"] []).logs.any
      LogEvent.isError = false ∧
    (linkLatestModel "entityX" "modelX" ["staging"] []).raised = false := by decide

/-- C6 amended: every command returns without raising when a precondition
fails, but only `stage_best_model_to_registry` (no qualifying artifact)
and `link_model` (empty path) log an error; `link_latest_model` and
`print_latest_model` return silently, logging nothing, when no artifact
carries "latest". -/
theorem cliPreconditionBehavior (entity modelName m : String) (hib : Bool)
    (als : List String) (coll : List Artifact)
    (hno : ∀ a ∈ coll, a.getMetric m = none)
    (hnl : ∀ a ∈ coll, a.aliases.contains "latest" = false) :
    stageBestModelToRegistry entity modelName m hib coll =
      ⟨[LogEvent.errorNoModelFound], [], [], false⟩ ∧
    linkModel entity "" als =
      ⟨[LogEvent.errorProvideArtifactPath], [], [], false⟩ ∧
    linkLatestModel entity modelName als coll = ⟨[], [], [], false⟩ ∧
    printLatestModel coll = ⟨[], [], [], false⟩ := by
  refine ⟨?_, rfl, linkLatestLoop_none entity modelName als coll hnl, ?_⟩
  · rw [stageBestModelToRegistry, stageBestSelect_none m hib coll hno]
  · rw [printLatestModel, printLatestLoop_none coll hnl]

theorem mem_foldl_aliasUnionStep (acc l : List String) (x : String) :
    x ∈ l.foldl aliasUnionStep acc ↔ x ∈ acc ∨ x ∈ l := by
  induction l generalizing acc with
  | nil => simp
  | cons y ys ih =>
    rw [List.foldl_cons, ih]
    by_cases hy : acc.contains y = true
    · rw [aliasUnionStep, if_pos hy]
      have hymem : y ∈ acc := List.mem_of_elem_eq_true hy
      constructor
      · rintro (h | h)
        · exact Or.inl h
        · exact Or.inr (List.mem_cons_of_mem y h)
      · rintro (h | h)
        · exact Or.inl h
        · rcases List.mem_cons.mp h with rfl | h'
          · exact Or.inl hymem
          · exact Or.inr h'
    · rw [aliasUnionStep, if_neg hy]
      constructor
      · rintro (h | h)
        · rcases List.mem_append.mp h with h'' | h''
          · exact Or.inl h''
          · have hx : x = y := List.mem_singleton.mp h''
            exact Or.inr (hx ▸ List.mem_cons_self y ys)
        · exact Or.inr (List.mem_cons_of_mem y h)
      · rintro (h | h)
        · exact Or.inl (List.mem_append_left _ h)
        · rcases List.mem_cons.mp h with rfl | h'
          · exact Or.inl (List.mem_append_right _ (List.mem_singleton.mpr rfl))
          · exact Or.inr h'

theorem foldl_aliasUnionStep_frozen (l : List String) :
    ∀ acc, (∀ x ∈ l, x ∈ acc) → l.foldl aliasUnionStep acc = acc := by
  induction l with
  | nil => intro acc _; rfl
  | cons y ys ih =>
    intro acc h
    have hy : acc.contains y = true :=
      List.elem_eq_true_of_mem (h y (List.mem_cons_self y ys))
    rw [List.foldl_cons, aliasUnionStep, if_pos hy]
    exact ih acc fun x hx => h x (List.mem_cons_of_mem y hx)

/-- C8: promotion leaves the artifact's metadata (and name) unchanged and
modifies only its alias set, additively: every pre-existing alias is kept,
every given alias is unioned in, and nothing else appears. -/
theorem promote_frame (a : Artifact) (als : List String) :
    (a.promote als).metadata = a.metadata ∧
    (a.promote als).name = a.name ∧
    (∀ x ∈ a.aliases, x ∈ (a.promote als).aliases) ∧
    (∀ x ∈ als, x ∈ (a.promote als).aliases) ∧
    (∀ x ∈ (a.promote als).aliases, x ∈ a.aliases ∨ x ∈ als) := by
  refine ⟨rfl, rfl, ?_, ?_, ?_⟩
  · intro x hx
    exact (mem_foldl_aliasUnionStep a.aliases als x).mpr (Or.inl hx)
  · intro x hx
    exact (mem_foldl_aliasUnionStep a.aliases als x).mpr (Or.inr hx)
  · intro x hx
    exact (mem_foldl_aliasUnionStep a.aliases als x).mp hx

/-- C9: promotion is idempotent — attaching the same alias set a second
time and saving again leaves the artifact, in particular its alias set,
exactly as after the first promotion. -/
theorem promote_idempotent (a : Artifact) (als : List String) :
    (a.promote als).promote als = a.promote als := by
  cases a with
  | mk n md al =>
    simp only [Artifact.promote]
    congr 1
    exact foldl_aliasUnionStep_frozen als _
      fun x hx => (mem_foldl_aliasUnionStep al als x).mpr (Or.inr hx)

theorem stageBestSelect_optimal_witness :
    (∃ a ∈ sampleColl, (a.getMetric "accuracy").isSome = true) ∧
    (∃ a v, (stageBestSelect "accuracy" true sampleColl).1 = some a ∧
      a ∈ sampleColl ∧ a.getMetric "accuracy" = some v ∧
      ∀ b ∈ sampleColl, ∀ w, b.getMetric "accuracy" = some w →
        (true = true → w ≤ v) ∧ (true = false → v ≤ w)) :=
  ⟨by decide, stageBestSelect_optimal "accuracy" true sampleColl (by decide)⟩

theorem stageBestSelect_tiebreak_witness :
    ((0 : ℕ) < sampleTie.length) ∧ ((1 : ℕ) < sampleTie.length) ∧ ((0 : ℕ) < 1) ∧
    (sampleTie.get ⟨0, by decide⟩).getMetric "accuracy" = some 95 ∧
    (sampleTie.get ⟨1, by decide⟩).getMetric "accuracy" = some 95 ∧
    (∀ b ∈ sampleTie, ∀ w, b.getMetric "accuracy" = some w →
      (true = true → w ≤ 95) ∧ (true = false → (95 : ℚ) ≤ w)) ∧
    (∀ b ∈ sampleTie.take 0, ∀ w, b.getMetric "accuracy" = some w → w ≠ 95) ∧
    (stageBestSelect "accuracy" true sampleTie).1 = some (sampleTie.get ⟨0, by decide⟩) :=
  ⟨by decide, by decide, by decide, by decide, by decide, by decide, by decide,
   stageBestSelect_tiebreak "accuracy" true sampleTie 0 1 (by decide) (by decide)
     (by decide) 95 (by decide) (by decide) (by decide) (by decide)⟩

theorem stageBestSelect_initial_witness :
    (∀ b ∈ [(⟨"v0", [], []⟩ : Artifact)], b.getMetric "accuracy" = none) ∧
    ((⟨"v1", [("accuracy", 90)], []⟩ : Artifact).getMetric "accuracy" = some 90) ∧
    (initBest true = negInf ∧ initBest false = posInf ∧
     compareOp true (qv 90) (initBest true) = true ∧
     stageBestSelect "accuracy" true
         ([⟨"v0", [], []⟩] ++ (⟨"v1", [("accuracy", 90)], []⟩ : Artifact) :: []) =
       selectLoop "accuracy" true [] (qv 90) (some ⟨"v1", [("accuracy", 90)], []⟩)) :=
  ⟨by decide, by decide,
   stageBestSelect_initial "accuracy" true [⟨"v0", [], []⟩] []
     ⟨"v1", [("accuracy", 90)], []⟩ 90 (by decide) (by decide)⟩

theorem stageBest_notFound_witness :
    (∀ a ∈ [(⟨"v3", [], []⟩ : Artifact)], a.getMetric "accuracy" = none) ∧
    ((stageBestSelect "accuracy" true [⟨"v3", [], []⟩]).1 = none ∧
     stageBestModelToRegistry "entityX" "modelX" "accuracy" true [⟨"v3", [], []⟩] =
       ⟨[LogEvent.errorNoModelFound], [], [], false⟩) :=
  ⟨by decide,
   stageBest_notFound "entityX" "modelX" "accuracy" true [⟨"v3", [], []⟩] (by decide)⟩

theorem linkModel_malformed_witness :
    (¬ (("x" : String).toList.count '/' = 2 ∧
        ((splitChar '/' ("x" : String).toList).getLastD []).count ':' = 1)) ∧
    ((("x" : String) = "" → linkModel "entityX" "x" ["staging"] =
        ⟨[LogEvent.errorProvideArtifactPath], [], [], false⟩) ∧
     (("x" : String) ≠ "" → linkModel "entityX" "x" ["staging"] = ⟨[], [], [], true⟩)) :=
  ⟨by decide, linkModel_malformed "entityX" "x" ["staging"] (by decide)⟩

theorem cliPreconditionBehavior_witness :
    (∀ a ∈ ([] : List Artifact), a.getMetric "accuracy" = none) ∧
    (∀ a ∈ ([] : List Artifact), a.aliases.contains "latest" = false) ∧
    (stageBestModelToRegistry "entityX" "modelX" "accuracy" true [] =
       ⟨[LogEvent.errorNoModelFound], [], [], false⟩ ∧
     linkModel "entityX" "" ["staging"] =
       ⟨[LogEvent.errorProvideArtifactPath], [], [], false⟩ ∧
     linkLatestModel "entityX" "modelX" ["staging"] [] = ⟨[], [], [], false⟩ ∧
     printLatestModel [] = ⟨[], [], [], false⟩) :=
  ⟨by decide, by decide,
   cliPreconditionBehavior "entityX" "modelX" "accuracy" true ["staging"] []
     (by decide) (by decide)⟩

theorem latestLocator_first_printAll_witness :
    (∀ b ∈ ([] : List Artifact), b.aliases.contains "latest" = false) ∧
    ((⟨"m:v0", [], ["latest"]⟩ : Artifact).aliases.contains "latest" = true) ∧
    (linkLatestModel "entityX" "modelX" ["staging"]
        ([] ++ (⟨"m:v0", [], ["latest"]⟩ : Artifact) :: [⟨"m:v1", [], ["latest"]⟩]) =
       ⟨[LogEvent.infoModelLinked],
        [StoreOp.link "m:v0" ("entityX" ++ "/model-registry/" ++ "modelX") ["staging"],
         StoreOp.save "m:v0"], [], false⟩ ∧
     (printLatestModel
        ([] ++ (⟨"m:v0", [], ["latest"]⟩ : Artifact) :: [⟨"m:v1", [], ["latest"]⟩])).printed =
       ((([] ++ (⟨"m:v0", [], ["latest"]⟩ : Artifact) :: [⟨"m:v1", [], ["latest"]⟩]).filter
           (fun b : Artifact => b.aliases.contains "latest")).map Artifact.name) ∧
     (printLatestModel
        ([] ++ (⟨"m:v0", [], ["latest"]⟩ : Artifact) :: [⟨"m:v1", [], ["latest"]⟩])).ops = [] ∧
     (printLatestModel
        ([] ++ (⟨"m:v0", [], ["latest"]⟩ : Artifact) :: [⟨"m:v1", [], ["latest"]⟩])).raised
       = false) :=
  ⟨by decide, by decide,
   latestLocator_first_printAll "entityX" "modelX" ["staging"] []
     [⟨"m:v1", [], ["latest"]⟩] ⟨"m:v0", [], ["latest"]⟩ (by decide) (by decide)⟩

theorem linkModel_parse_ok_witness :
    (("//:" : String) ≠ "") ∧
    (("//:" : String).toList.count '/' = 2) ∧
    (((splitChar '/' ("//:" : String).toList).getLastD []).count ':' = 1) ∧
    (∃ e p anv nm ver,
      splitChar '/' ("//:" : String).toList = [e, p, anv] ∧
      splitChar ':' anv = [nm, ver] ∧
      linkModel "entityX" "//:" ["staging"] =
        ⟨[LogEvent.infoModelLinked, LogEvent.infoEmpty],
         [StoreOp.fetch "//:",
          StoreOp.link "//:" ("entityX" ++ "/model-registry/" ++ String.mk nm) ["staging"],
          StoreOp.save "//:"], [], false⟩) :=
  ⟨by decide, by decide, by decide,
   linkModel_parse_ok "entityX" "//:" ["staging"] (by decide) (by decide) (by decide)⟩

theorem promote_frame_witness :
    (Artifact.promote ⟨"v1", [("accuracy", 90)], ["old"]⟩ ["best", "staging"]).metadata =
      [("accuracy", 90)] ∧
    "old" ∈ (Artifact.promote ⟨"v1", [("accuracy", 90)], ["old"]⟩ ["best", "staging"]).aliases :=
  ⟨(promote_frame ⟨"v1", [("accuracy", 90)], ["old"]⟩ ["best", "staging"]).1,
   (promote_frame ⟨"v1", [("accuracy", 90)], ["old"]⟩ ["best", "staging"]).2.2.1 "old"
     (by decide)⟩
